import Mathlib

/-!
Verification of the `slogex` observer package: a shallow embedding of the
`observer` handler (`observer/observer.go`), the logged-record attribute map
(`observer/logged_record.go`), and the two store implementations
(`ObservedLogsDefault` and `ObservedLogsRing`), together with theorems about
the specified properties of these components.

Attribute values are modelled by the inductive `Value`; the opaque "any"
payloads (Go `slog.KindAny`, used in the tests for maps and slices) are
modelled by `anyv` carrying a structural payload, on which the embedded
`reflect.DeepEqual` is structural equality.
-/

namespace Slogex

/-- Payload of an "any"-kind value (Go `slog.KindAny`): a value of some
dynamic Go type, which is either comparable (`cmp`, e.g. ints, strings,
comparable structs) or non-comparable (`noncmp`, e.g. maps, slices, and the
test suite's `map[string]string` and `[]string`). The first string is the
dynamic type's name and the rest is the structural content; whether a type
is comparable is a property of the type, which the two constructors keep
separate. -/
inductive AnyPayload where
  | cmp (t : String) (v : String)
  | noncmp (t : String) (v : List String)
deriving DecidableEq

/-- Mirrors `reflect.DeepEqual` on "any" payloads: total structural
equality — values of different dynamic types are unequal, values of the
same type (comparable or not) compare by deep content, and no input
panics. -/
def AnyPayload.deepEqual : AnyPayload → AnyPayload → Bool
  | .cmp t1 v1, .cmp t2 v2 => t1 == t2 && v1 == v2
  | .noncmp t1 v1, .noncmp t2 v2 => t1 == t2 && v1 == v2
  | _, _ => false

/-- Mirrors Go's interface comparison `v.any == w.any` inside
`slog.Value.Equal`: operands of different dynamic types compare false;
operands of the same comparable type compare by value; operands of the same
non-comparable type cause a run-time panic ("comparing uncomparable type"),
modelled as `none`. -/
def AnyPayload.goEq : AnyPayload → AnyPayload → Option Bool
  | .cmp t1 v1, .cmp t2 v2 => some (t1 == t2 && v1 == v2)
  | .noncmp t1 _, .noncmp t2 _ => if t1 == t2 then none else some false
  | _, _ => some false

/-- Attribute value, mirroring `slog.Value`. Kinds embedded: string, int64,
bool, an "any" payload (`AnyPayload`), and group. -/
inductive Value where
  | str (s : String)
  | int (i : Int)
  | boolv (b : Bool)
  | anyv (p : AnyPayload)
  | group (g : List (String × Value))

/-- Attribute, mirroring `slog.Attr`: a key paired with a value. -/
abbrev Attr := String × Value

/-- Kind tag of a value, mirroring `slog.Kind` for the embedded kinds. -/
inductive VKind where
  | kstr
  | kint
  | kbool
  | kany
  | kgroup
deriving DecidableEq

/-- Mirrors `Value.Kind()`. -/
def Value.kind : Value → VKind
  | .str _ => .kstr
  | .int _ => .kint
  | .boolv _ => .kbool
  | .anyv _ => .kany
  | .group _ => .kgroup

/-- Mirrors `slog.Value.Equal`: values of different kinds compare false;
the scalar kinds compare by value (total); the "any" kind uses the interface
comparison `v.any == w.any`, which may panic (`none`); groups compare with
`slices.EqualFunc(v.group(), w.group(), Attr.Equal)` — a length check, then
pairwise `Attr.Equal` (key first, short-circuiting), propagating any
panic. -/
def Value.goEqual : Value → Value → Option Bool
  | .str a, .str b => some (a == b)
  | .int a, .int b => some (a == b)
  | .boolv a, .boolv b => some (a == b)
  | .anyv a, .anyv b => a.goEq b
  | .group a, .group b => if a.length = b.length then go a b else some false
  | _, _ => some false
where go : List Attr → List Attr → Option Bool
  | (k1, v1) :: t1, (k2, v2) :: t2 =>
    if k1 == k2 then
      match v1.goEqual v2 with
      | none => none
      | some true => go t1 t2
      | some false => some false
    else some false
  | [], [] => some true
  | _, _ => some false

/-- Mirrors `slog.Attr.Equal`: `a.Key == b.Key && a.Value.Equal(b.Value)`,
with Go's `&&` short-circuit (a key mismatch never reaches the value
comparison, so it cannot panic). -/
def Attr.goEqual (a b : Attr) : Option Bool :=
  if a.1 == b.1 then Value.goEqual a.2 b.2 else some false

/-- Mirrors the guard `(kind == slog.KindAny || kind == slog.KindLogValuer)
&& reflect.DeepEqual(a.Value.Any(), attr.Value.Any())` of `filterAttr` at a
point where the two kinds are already known equal: true exactly when both
values are of the "any" kind and their payloads are deep-structurally
equal. (`KindLogValuer` is not among the embedded kinds.) -/
def anyDeepEqual : Value → Value → Bool
  | .anyv p, .anyv q => p.deepEqual q
  | _, _ => false

/-- Mirrors `Value.Group()`: the member list of a group value. On non-group
kinds Go would panic; every call site in the embedded code applies it to
group-kind values only. -/
def Value.groupMembers : Value → List Attr
  | .group g => g
  | _ => []

/-- Mirrors `Value.isEmptyGroup`: true iff the value is a group with no
members. -/
def Attr.isEmptyGroup (a : Attr) : Bool :=
  match a.2 with
  | .group g => g.isEmpty
  | _ => false

/-- Mirrors `slog.GroupValue(as...)`: builds a group value, removing members
that are themselves empty groups. -/
def groupValue (as : List Attr) : Value :=
  .group (as.filter (fun a => !(Attr.isEmptyGroup a)))

/-- Mirrors `slog.Group(key, args...)` for an explicit attribute list. -/
def groupAttr (key : String) (as : List Attr) : Attr :=
  (key, groupValue as)

/-- Mirrors the stored part of `slog.Record`: timestamp (opaque, a number),
level (`slog.Level` is an int), and message. The record's own attributes are
threaded separately, as `contextObserver.Handle` extracts them into a list
before storing. -/
structure Record where
  time : Nat
  level : Int
  message : String
deriving DecidableEq

/-- Mirrors `observer.LoggedRecord`: a record plus its extracted attribute
list. -/
structure LoggedRecord where
  record : Record
  attrs : List Attr

/-- Zero value of `LoggedRecord`, as produced by `make([]LoggedRecord, n)`. -/
def LoggedRecord.zero : LoggedRecord :=
  { record := { time := 0, level := 0, message := "" }, attrs := [] }

/-- Effect of Go's `copy(dst, src)` on the destination slice: the first
`min (src.length) (dst.length)` positions receive `src`, the rest keep their
old contents, and the length of `dst` is unchanged. -/
def goCopy {α : Type} (dst src : List α) : List α :=
  src.take dst.length ++ dst.drop src.length

/-- Effect of Go's `copy(dst[off:], src)`: `goCopy` applied to the suffix of
`dst` starting at `off`. -/
def goCopyAt {α : Type} (dst : List α) (off : Nat) (src : List α) : List α :=
  dst.take off ++ goCopy (dst.drop off) src

/-- State of `ObservedLogsDefault` (ordered, shift-and-append store). The
field `caplogs` models Go's `cap(o.logs)`: the capacity of the backing array
of the `logs` slice, which `Add` consults in fixed mode. -/
structure ObservedLogsDefault where
  fixed : Bool
  size : Nat
  caplogs : Nat
  logs : List LoggedRecord

namespace ObservedLogsDefault

/-- Mirrors `NewObservedLogsDefault(maxLogs)`: `fixed` is set iff
`maxLogs > 0`, and the slice is pre-allocated with capacity `maxLogs`
(a nil slice, capacity 0, otherwise). -/
def new (maxLogs : Nat) : ObservedLogsDefault :=
  { fixed := decide (0 < maxLogs), size := 0, caplogs := maxLogs, logs := [] }

/-- Mirrors `ObservedLogsDefault.Len`: `len(o.logs)`. -/
def Len (o : ObservedLogsDefault) : Nat :=
  o.logs.length

/-- Mirrors `ObservedLogsDefault.All`: a copy of `o.logs`. -/
def All (o : ObservedLogsDefault) : List LoggedRecord :=
  o.logs

/-- Mirrors `ObservedLogsDefault.AllUntimed`: `All` with every timestamp
reset to the zero value. -/
def AllUntimed (o : ObservedLogsDefault) : List LoggedRecord :=
  o.All.map (fun lr => { lr with record := { lr.record with time := 0 } })

/-- Mirrors `ObservedLogsDefault.TakeAll`: returns `o.logs` and sets
`o.logs = nil` (so the slice's capacity becomes 0). The `size` field is left
unchanged by the source. -/
def TakeAll (o : ObservedLogsDefault) : List LoggedRecord × ObservedLogsDefault :=
  (o.logs, { o with logs := [], caplogs := 0 })

/-- Capacity growth of Go's `append` when the backing array is full:
capacity 0 grows to 1, otherwise small slices double. The exact value is
read back only through `cap(o.logs)` in `Add`'s fixed mode. -/
def goGrow (n : Nat) : Nat :=
  if n = 0 then 1 else 2 * n

/-- Mirrors `ObservedLogsDefault.Add`. In fixed mode with `o.size+1`
exceeding `cap(o.logs)` the source shifts the slice left with
`copy(o.logs[0:], o.logs[1:])`, decrements `size` back, and writes the new
record at `o.logs[o.size-1]`; `none` models the run-time panic of the slice
expression `o.logs[1:]` on an empty slice or of an out-of-range index.
Otherwise the record is appended. -/
def Add (o : ObservedLogsDefault) (r : LoggedRecord) : Option ObservedLogsDefault :=
  let size1 := o.size + 1
  if o.fixed ∧ o.caplogs < size1 then
    if o.logs.length = 0 then
      none
    else
      let shifted := goCopy o.logs (o.logs.drop 1)
      let size2 := size1 - 1
      if 1 ≤ size2 ∧ size2 - 1 < shifted.length then
        some { o with size := size2, logs := shifted.set (size2 - 1) r }
      else
        none
  else
    some { o with
           size := size1,
           logs := o.logs ++ [r],
           caplogs := if o.logs.length < o.caplogs then o.caplogs else goGrow o.logs.length }

/-- Folds a sequence of `Add` calls, propagating a panic as `none`. -/
def addList (o : ObservedLogsDefault) (rs : List LoggedRecord) : Option ObservedLogsDefault :=
  rs.foldlM Add o

/-- Mirrors `ObservedLogsDefault.Filter`: collects the entries accepted by
`keep`, in order, into a fresh `ObservedLogsDefault` literal whose only set
field is `logs` (so `fixed` is false and `size` is 0 in the result). -/
def Filter (o : ObservedLogsDefault) (keep : LoggedRecord → Bool) : ObservedLogsDefault :=
  let filtered := o.logs.filter keep
  { fixed := false, size := 0, caplogs := filtered.length, logs := filtered }

end ObservedLogsDefault

/-- State of `ObservedLogsRing` (ring-buffer store). In fixed mode the
source allocates `make([]LoggedRecord, maxLogs)`, so the slice's length and
capacity both equal `maxLogs` and stay so; `cap(o.logs)` is therefore
`logs.length` here. -/
structure ObservedLogsRing where
  fixed : Bool
  size : Nat
  over : Bool
  logs : List LoggedRecord

namespace ObservedLogsRing

/-- Mirrors `NewObservedLogsRing(maxLogs)`: in fixed mode the buffer is a
zero-filled slice of length `maxLogs`. -/
def new (maxLogs : Nat) : ObservedLogsRing :=
  { fixed := decide (0 < maxLogs), size := 0, over := false,
    logs := List.replicate maxLogs LoggedRecord.zero }

/-- Mirrors the unexported `ObservedLogsRing.len`: `size` until the ring has
wrapped, `cap(o.logs)` afterwards. -/
def lenAux (o : ObservedLogsRing) : Nat :=
  if !o.fixed || !o.over then o.size else o.logs.length

/-- Mirrors `ObservedLogsRing.Len`. -/
def Len (o : ObservedLogsRing) : Nat :=
  o.lenAux

/-- Mirrors the unexported `ObservedLogsRing.all`: allocates a result of
length `o.len()` and, in fixed mode, copies `o.logs[o.size%cap:]` into it
followed by `o.logs[:o.size%cap]` at offset `cap - o.size%cap`. `none`
models the panic of the slice expression `ret[cap - o.size%cap:]` when that
offset exceeds the result's capacity (which happens on a fixed ring that is
less than half full), and the modulo-by-zero on a zero-capacity fixed
ring. -/
def allAux (o : ObservedLogsRing) : Option (List LoggedRecord) :=
  let ret0 := List.replicate o.lenAux LoggedRecord.zero
  if !o.fixed then
    some (goCopy ret0 o.logs)
  else
    let c := o.logs.length
    if c = 0 then
      none
    else
      let p := o.size % c
      let ret1 := goCopy ret0 (o.logs.drop p)
      if ret0.length < c - p then
        none
      else
        some (goCopyAt ret1 (c - p) (o.logs.take p))

/-- Mirrors `ObservedLogsRing.All`. -/
def All (o : ObservedLogsRing) : Option (List LoggedRecord) :=
  o.allAux

/-- Mirrors `ObservedLogsRing.TakeAll`: returns `o.all()`, then resets
`size` and `over` and reallocates the buffer at the same capacity (nil when
unbounded). -/
def TakeAll (o : ObservedLogsRing) : Option (List LoggedRecord) × ObservedLogsRing :=
  let emptied : ObservedLogsRing :=
    { fixed := o.fixed, size := 0, over := false,
      logs := if o.fixed then List.replicate o.logs.length LoggedRecord.zero else [] }
  (o.allAux, emptied)

/-- Mirrors `ObservedLogsRing.Add`: unbounded mode appends; fixed mode
writes at index `(o.size-1) % cap(o.logs)` (after the increment) and updates
`over`. `none` models the modulo-by-zero panic on a zero-capacity fixed
ring, which no constructed store reaches. -/
def Add (o : ObservedLogsRing) (r : LoggedRecord) : Option ObservedLogsRing :=
  let size1 := o.size + 1
  if !o.fixed then
    some { o with size := size1, logs := o.logs ++ [r] }
  else
    if o.logs.length = 0 then
      none
    else
      let idx := (size1 - 1) % o.logs.length
      some { o with
             size := size1
             logs := o.logs.set idx r
             over := decide (o.logs.length < size1) }

/-- Mirrors `ObservedLogsRing.Filter`: unbounded mode scans `o.logs` in
order; fixed mode scans `o.logs[o.size%cap:]` then `o.logs[:o.size%cap]`.
The result is a fresh `ObservedLogsRing` literal with only `logs` and `size`
set (so `fixed` and `over` are false). `none` models the modulo-by-zero on a
zero-capacity fixed ring. -/
def Filter (o : ObservedLogsRing) (keep : LoggedRecord → Bool) : Option ObservedLogsRing :=
  if !o.fixed then
    let filtered := o.logs.filter keep
    some { fixed := false, size := filtered.length, over := false, logs := filtered }
  else
    if o.logs.length = 0 then
      none
    else
      let p := o.size % o.logs.length
      let filtered := (o.logs.drop p).filter keep ++ (o.logs.take p).filter keep
      some { fixed := false, size := filtered.length, over := false, logs := filtered }

end ObservedLogsRing

/-- Mirrors the package-level `filterAttr(attrs, attr)`: scans the list; a
group-kind entry is searched recursively (and then skipped); a non-group
entry is skipped unless its key and kind equal the target's, in which case
an "any"-kind pair is first tested with `reflect.DeepEqual` (returning true
on a deep match) and otherwise the code falls through to `a.Equal(attr)`,
whose interface comparison on "any" payloads may panic — `none` models that
panic, which propagates out of the scan. -/
def filterAttr (attrs : List Attr) (attr : Attr) : Option Bool :=
  match attrs with
  | [] => some false
  | (_, Value.group g) :: rest =>
    match filterAttr g attr with
    | none => none
    | some true => some true
    | some false => filterAttr rest attr
  | (k, v) :: rest =>
    if k == attr.1 && (Value.kind v == Value.kind attr.2) then
      if anyDeepEqual v attr.2 then
        some true
      else
        match Attr.goEqual (k, v) attr with
        | none => none
        | some true => some true
        | some false => filterAttr rest attr
    else
      filterAttr rest attr

/-- Occurrence of an attribute with the same key, kind and value anywhere in
an attribute tree, descending recursively into nested groups — the notion of
"the record has the attribute" used by the specification, in which a
group-kind attribute may itself be the match. -/
def Occurs : List Attr → Attr → Prop
  | [], _ => False
  | (k, Value.group g) :: rest, attr =>
      (k, Value.group g) = attr ∨ Occurs g attr ∨ Occurs rest attr
  | a :: rest, attr => a = attr ∨ Occurs rest attr

/-- Mirrors `ObservedLogsDefault.FilterAttr`: `Filter` with the `filterAttr`
predicate; a panic inside the predicate aborts the whole scan (`none`). -/
def ObservedLogsDefault.FilterAttr (o : ObservedLogsDefault) (attr : Attr) :
    Option ObservedLogsDefault :=
  if o.logs.any (fun e => (filterAttr e.attrs attr).isNone) then
    none
  else
    some (o.Filter (fun e => (filterAttr e.attrs attr).getD false))

/-- Value stored in the map produced by `AttrsMap`: `a.Value.Any()` for a
non-group attribute, a nested map for a group. Maps are represented as
association lists in first-insertion order with no duplicate keys, which is
a canonical representative of Go's unordered `map[string]any`. -/
inductive MVal where
  | leaf (v : Value)
  | tree (m : List (String × MVal))

/-- Go map assignment `res[k] = v` on the association-list representation:
overwrites in place if the key is present, inserts at the end otherwise. -/
def mapPut (m : List (String × MVal)) (k : String) (v : MVal) :
    List (String × MVal) :=
  if m.any (fun p => p.1 == k) then
    m.map (fun p => if p.1 == k then (k, v) else p)
  else
    m ++ [(k, v)]

/-- Go map lookup on the association-list representation. -/
def mapGet (m : List (String × MVal)) (k : String) : Option MVal :=
  (m.find? (fun p => p.1 == k)).map (fun p => p.2)

/-- Mirrors the recursive `LoggedRecord.attrsMap(attrs)` loop with
accumulator `res`: attributes with an empty key are skipped, group values
recurse into a nested map, every other attribute is stored under its key. -/
def attrsMapAux (res : List (String × MVal)) : List Attr → List (String × MVal)
  | [] => res
  | (k, v) :: rest =>
    if k = "" then
      attrsMapAux res rest
    else
      match v with
      | Value.group g => attrsMapAux (mapPut res k (.tree (attrsMapAux [] g))) rest
      | v => attrsMapAux (mapPut res k (.leaf v)) rest

/-- Mirrors `LoggedRecord.AttrsMap()` on an attribute list. -/
def attrsMap (attrs : List Attr) : List (String × MVal) :=
  attrsMapAux [] attrs

/-- Mirrors `LoggedRecord.AttrsMap()`. -/
def LoggedRecord.AttrsMap (e : LoggedRecord) : List (String × MVal) :=
  attrsMap e.attrs

/-- Modelled from the spec (P7): the flat mapping whose entries are exactly
the key-to-value pairs of the attribute list, built with last-write-wins map
insertion. This is the comparison definition for the round-trip claim, not a
translation of source code. -/
def specFlatMap (attrs : List Attr) : List (String × MVal) :=
  attrs.foldl (fun m a => mapPut m a.1 (.leaf a.2)) []

/-- Backing arrays of the `groups` slices of handler instances. Every
`groups` slice in the source is produced either by `append` past capacity
(fresh array) or by the three-index expression `c.groups[:l:l]` (the same
array), and arrays are only ever written through element assignment
`c.groups[i].Value = ...`; the `attrs` slices are never element-assigned, so
they keep plain value semantics. -/
structure Heap where
  arrays : List (List Attr)

/-- Contents of a heap array (a missing id reads as the nil slice). -/
def Heap.get (h : Heap) (id : Nat) : List Attr :=
  h.arrays.getD id []

/-- Overwrites one heap array, as Go element assignment does. -/
def Heap.put (h : Heap) (id : Nat) (a : List Attr) : Heap :=
  ⟨h.arrays.set id a⟩

/-- Allocates a fresh backing array, as `append` past capacity does. -/
def Heap.alloc (h : Heap) (a : List Attr) : Nat × Heap :=
  (h.arrays.length, ⟨h.arrays ++ [a]⟩)

/-- Mirrors `contextObserver`: the minimum-level option, the accumulated
flat attributes (value semantics, see `Heap`), and the id of the shared
backing array of the `groups` slice. The store reference is threaded
separately. -/
structure contextObserver where
  minLevel : Option Int
  attrs : List Attr
  groupsId : Nat

namespace contextObserver

/-- Mirrors the handler part of `observer.New`: nil attributes and nil
groups (an empty backing array; no element of a length-0 slice can be
written, so sharing it is unobservable). -/
def new (h : Heap) : contextObserver × Heap :=
  let (id, h2) := h.alloc []
  ({ minLevel := none, attrs := [], groupsId := id }, h2)

/-- Mirrors `contextObserver.Enabled`: level at least the configured
minimum, defaulting to `slog.LevelInfo` (0). -/
def Enabled (c : contextObserver) (level : Int) : Bool :=
  level ≥ c.minLevel.getD 0

/-- Mirrors `contextObserver.WithGroup`: `append(c.groups[:l:l],
slog.Group(name))` always reallocates (the sliced capacity equals the
length), so the child gets a fresh groups array extended with an empty
group; the parent's array is unchanged. -/
def WithGroup (c : contextObserver) (h : Heap) (name : String) :
    contextObserver × Heap :=
  let g := h.get c.groupsId
  let (id, h2) := h.alloc (g ++ [(name, Value.group [])])
  ({ c with groupsId := id }, h2)

/-- Mirrors `contextObserver.WithAttrs`. With no open group,
`append(co.attrs, attrs...)` on the capacity-trimmed copy reallocates, so
the child's flat attributes extend the parent's by value. With an open
group, the source assigns `co.groups[l-1].Value =
slog.GroupValue(append(co.groups[l-1].Value.Group(), attrs...)...)` where
`co.groups` is `c.groups[:l:l]` — the same backing array as the parent's —
so the write lands in the shared array and the child keeps the parent's
`groupsId`. -/
def WithAttrs (c : contextObserver) (h : Heap) (as : List Attr) :
    contextObserver × Heap :=
  let g := h.get c.groupsId
  if g.length = 0 then
    ({ c with attrs := c.attrs ++ as }, h)
  else
    let idx := g.length - 1
    let (k, v) := g.getD idx ("", Value.group [])
    (c, h.put c.groupsId (g.set idx (k, groupValue (v.groupMembers ++ as))))

/-- Mirrors the group-folding loop in `contextObserver.Handle`:
`for i := len(c.groups)-1; i >= 1; i--` assigns `c.groups[i-1].Value =
slog.GroupValue(append(c.groups[i-1].Value.Group(), c.groups[i])...)`,
writing into the shared groups array. The counter argument is the current
loop index `i`. -/
def foldGroups (h : Heap) (id : Nat) : Nat → Heap
  | 0 => h
  | i + 1 =>
    let g := h.get id
    let gi := g.getD (i + 1) ("", Value.group [])
    let (k, v) := g.getD i ("", Value.group [])
    foldGroups (h.put id (g.set i (k, groupValue (v.groupMembers ++ [gi])))) id i

/-- Mirrors `contextObserver.Handle` for a record whose own attributes are
`recAttrs`. With open groups the record's attributes are first merged into
the innermost group (when non-empty) by a shared-array write, the groups are
folded innermost-to-outermost (more shared-array writes), and the stored
attribute list is the handler's flat attributes followed by the folded
top-level group; with no open groups it is the record's attributes followed
by the handler's flat attributes. Returns the `LoggedRecord` passed to
`Add` and the heap after the writes. -/
def Handle (c : contextObserver) (h : Heap) (rec : Record)
    (recAttrs : List Attr) : LoggedRecord × Heap :=
  let g0 := h.get c.groupsId
  if g0.length = 0 then
    ({ record := rec, attrs := recAttrs ++ c.attrs }, h)
  else
    let h1 :=
      if recAttrs.length = 0 then h
      else
        let idx := g0.length - 1
        let (k, v) := g0.getD idx ("", Value.group [])
        h.put c.groupsId (g0.set idx (k, groupValue (v.groupMembers ++ recAttrs)))
    let h2 := foldGroups h1 c.groupsId (g0.length - 1)
    let gfin := h2.get c.groupsId
    ({ record := rec, attrs := c.attrs ++ [gfin.getD 0 ("", Value.group [])] }, h2)

end contextObserver

/-- Characterization of an `ObservedLogsDefault` store with capacity `K`
after the records `l` have been added to a fresh fixed store: `size` is
capped at `K` and `logs` holds the most recent `K` records. -/
def stateOf (K : Nat) (l : List LoggedRecord) : ObservedLogsDefault :=
  { fixed := true, size := min l.length K, caplogs := K,
    logs := l.drop (l.length - K) }

/-- Sample record used by the concrete witnesses and counterexamples. -/
def recA : LoggedRecord :=
  { record := { time := 1, level := 0, message := "a" }, attrs := [] }

/-- Second sample record. -/
def recB : LoggedRecord :=
  { record := { time := 2, level := 0, message := "b" }, attrs := [] }

/-- Third sample record. -/
def recC : LoggedRecord :=
  { record := { time := 3, level := 0, message := "c" }, attrs := [] }

/-- Bounded default store with capacity 1, one record added, then drained by
`TakeAll`. -/
def c4Drained : Option ObservedLogsDefault :=
  ((ObservedLogsDefault.new 1).Add recA).map (fun s => s.TakeAll.2)

/-- An `Add` call on the drained bounded store. -/
def c4After : Option ObservedLogsDefault :=
  c4Drained.bind (fun s => s.Add recB)

/-- Ring store of capacity 3 with one record added. -/
def c3Ring1 : Option ObservedLogsRing :=
  (ObservedLogsRing.new 3).Add recA

/-- Ring store of capacity 3 with two records added. -/
def c3Ring2 : Option ObservedLogsRing :=
  c3Ring1.bind (fun s => s.Add recB)

/-- Default store of capacity 3 with one record added. -/
def c3Default1 : Option ObservedLogsDefault :=
  (ObservedLogsDefault.new 3).Add recA

/-- Result of filtering a bounded (capacity 1) store holding one record with
the all-accepting predicate. -/
def c7Filtered : Option ObservedLogsDefault :=
  ((ObservedLogsDefault.new 1).Add recA).map (fun s => s.Filter (fun _ => true))

/-- Two further `Add` calls on the filtered store. -/
def c7After : Option ObservedLogsDefault :=
  (c7Filtered.bind (fun s => s.Add recB)).bind (fun s => s.Add recC)

/-- Fresh handler over a fresh heap. -/
def c2Start : contextObserver × Heap :=
  contextObserver.new ⟨[]⟩

/-- Parent handler `H` with one open group `"g"`. -/
def c2Parent : contextObserver × Heap :=
  (c2Start.1).WithGroup c2Start.2 "g"

/-- First sibling `H1 = H.WithAttrs({c:3})`. -/
def c2H1 : contextObserver × Heap :=
  (c2Parent.1).WithAttrs c2Parent.2 [("c", Value.int 3)]

/-- Second sibling `H2 = H.WithAttrs({d:4})`, derived from the same parent
after `H1`. -/
def c2H2 : contextObserver × Heap :=
  (c2Parent.1).WithAttrs c2H1.2 [("d", Value.int 4)]

/-- Record logged through `H2`. -/
def c2Logged : LoggedRecord × Heap :=
  (c2H2.1).Handle c2H2.2 { time := 0, level := 0, message := "m" } []

/-- Fresh handler for the `Handle`-twice scenario. -/
def c5Start : contextObserver × Heap :=
  contextObserver.new ⟨[]⟩

/-- Handler with one open group `"g"`. -/
def c5Handler : contextObserver × Heap :=
  (c5Start.1).WithGroup c5Start.2 "g"

/-- First `Handle` call with record attribute `k="v"`. -/
def c5First : LoggedRecord × Heap :=
  (c5Handler.1).Handle c5Handler.2 { time := 0, level := 0, message := "m" }
    [("k", Value.str "v")]

/-- Second `Handle` call on the same handler with the same record. -/
def c5Second : LoggedRecord × Heap :=
  (c5Handler.1).Handle c5First.2 { time := 0, level := 0, message := "m" }
    [("k", Value.str "v")]

/-- Fresh handler for the group-nesting scenario. -/
def c6Start : contextObserver × Heap :=
  contextObserver.new ⟨[]⟩

/-- Ancestor handler `H` carrying attribute `i=1`. -/
def c6Anc : contextObserver × Heap :=
  (c6Start.1).WithAttrs c6Start.2 [("i", Value.int 1)]

/-- The chain `H.WithGroup("foo")`. -/
def c6Foo : contextObserver × Heap :=
  (c6Anc.1).WithGroup c6Anc.2 "foo"

/-- The chain `H.WithGroup("foo").WithAttrs(i=2, Group("bar", i=3))`. -/
def c6With : contextObserver × Heap :=
  (c6Foo.1).WithAttrs c6Foo.2 [("i", Value.int 2), groupAttr "bar" [("i", Value.int 3)]]

/-- Record logged through the chain with message `"foo"` and no record
attributes. -/
def c6Logged : LoggedRecord × Heap :=
  (c6With.1).Handle c6With.2 { time := 7, level := 0, message := "foo" } []

/-- Group-kind attribute used as a `FilterAttr` target. -/
def c8Target : Attr :=
  ("g", Value.group [("k", Value.str "v")])

/-- Stored attribute holding a non-comparable "any" payload (a map). -/
def c8PanicStored : Attr :=
  ("m", Value.anyv (AnyPayload.noncmp "map of string to string" ["a maps to b"]))

/-- Target attribute with the same key and dynamic type but a different
payload value. -/
def c8PanicTarget : Attr :=
  ("m", Value.anyv (AnyPayload.noncmp "map of string to string" ["a maps to c"]))

/-- Attribute list with an empty-key, non-empty-value attribute. -/
def c9Example : List Attr :=
  [("", Value.str "x")]

/-- Attribute list with no groups, no empty keys and one duplicate key. -/
def c9Flat : List Attr :=
  [("k1", Value.str "v1"), ("k2", Value.int 10), ("k1", Value.str "v2")]

/-- Deep structural equality on payloads coincides with propositional
equality (and, being total, never panics). -/
theorem AnyPayload.deepEqual_iff_eq (p q : AnyPayload) :
    p.deepEqual q = true ↔ p = q := by
  cases p <;> cases q <;> simp [AnyPayload.deepEqual]

/-- A true interface comparison implies propositional equality of the
payloads. -/
theorem AnyPayload.goEq_some_true (p q : AnyPayload) :
    p.goEq q = some true → p = q := by
  cases p <;> cases q <;> simp [AnyPayload.goEq]

/-- A true `slog.Value.Equal` on a non-group value implies propositional
equality. -/
theorem Value.goEqual_some_true (v w : Value) (hv : Value.kind v ≠ VKind.kgroup) :
    Value.goEqual v w = some true → v = w := by
  cases v <;> cases w <;> simp [Value.goEqual, Value.kind] at hv ⊢ <;>
    exact AnyPayload.goEq_some_true _ _

/-- On the scalar kinds `slog.Value.Equal` of a value with itself is a true,
panic-free comparison. -/
theorem Value.goEqual_self_scalar (v : Value) (hg : Value.kind v ≠ VKind.kgroup)
    (ha : Value.kind v ≠ VKind.kany) : Value.goEqual v v = some true := by
  cases v <;> simp [Value.goEqual, Value.kind] at hg ha ⊢

/-- A true `DeepEqual` guard implies propositional equality of the
values. -/
theorem anyDeepEqual_true_eq (v w : Value) : anyDeepEqual v w = true → v = w := by
  cases v <;> cases w <;> simp [anyDeepEqual, AnyPayload.deepEqual_iff_eq]

/-- The `DeepEqual` guard accepts an "any" value compared with itself. -/
theorem anyDeepEqual_self (p : AnyPayload) :
    anyDeepEqual (Value.anyv p) (Value.anyv p) = true := by
  simp [anyDeepEqual, AnyPayload.deepEqual_iff_eq]

theorem goCopy_length {α : Type} (dst src : List α) :
    (goCopy dst src).length = dst.length := by
  simp [goCopy]
  omega

/-- Effect of the shift `copy(l[0:], l[1:])`: every element moves one slot
to the left and the last slot keeps its old value. -/
theorem goCopy_shift {α : Type} (l : List α) :
    goCopy l (l.drop 1) = l.drop 1 ++ l.drop (l.length - 1) := by
  rw [goCopy]
  congr 1
  · apply List.take_of_length_le
    simp
  · congr 1
    simp

theorem set_append_len {α : Type} (xs ys : List α) (a : α) :
    (xs ++ ys).set xs.length a = xs ++ ys.set 0 a := by
  induction xs with
  | nil => simp
  | cons h t ih => simp [ih]

theorem drop_append_le {α : Type} (xs ys : List α) (n : Nat) (h : n ≤ xs.length) :
    (xs ++ ys).drop n = xs.drop n ++ ys := by
  induction xs generalizing n with
  | nil =>
    simp at h
    simp [h]
  | cons hd tl ih =>
    cases n with
    | zero => simp
    | succ m =>
      simp at h ⊢
      exact ih m (by omega)

theorem add_stateOf (K : Nat) (hK : 0 < K) (pre : List LoggedRecord)
    (r : LoggedRecord) :
    (stateOf K pre).Add r = some (stateOf K (pre ++ [r])) := by
  by_cases hlt : pre.length < K
  · have h0 : pre.length - K = 0 := by omega
    have hmin1 : pre.length ⊓ K = pre.length := Nat.min_eq_left (le_of_lt hlt)
    have hmin2 : (pre.length + 1) ⊓ K = pre.length + 1 := Nat.min_eq_left (by omega)
    have h1 : pre.length + 1 - K = 0 := by omega
    have hc : ¬ (K < pre.length + 1) := by omega
    simp [ObservedLogsDefault.Add, stateOf, h0, h1, hmin1, hmin2, hlt, hc]
  · push_neg at hlt
    have hlen : (pre.drop (pre.length - K)).length = K := by
      simp
      omega
    have hmin : pre.length ⊓ K = K := Nat.min_eq_right hlt
    have hmin2 : (pre.length + 1) ⊓ K = K := Nat.min_eq_right (by omega)
    have hLne : ¬ ((pre.drop (pre.length - K)).length = 0) := by omega
    have hslen : (goCopy (pre.drop (pre.length - K)) ((pre.drop (pre.length - K)).drop 1)).length = K := by
      rw [goCopy_length, hlen]
    obtain ⟨x, hx⟩ : ∃ x, (pre.drop (pre.length - K)).drop (K - 1) = [x] := by
      apply List.length_eq_one.mp
      simp
      omega
    have hd1 : ((pre.drop (pre.length - K)).drop 1).length = K - 1 := by
      simp
      omega
    have hset : (goCopy (pre.drop (pre.length - K)) ((pre.drop (pre.length - K)).drop 1)).set (K - 1) r
        = (pre.drop (pre.length - K)).drop 1 ++ [r] := by
      rw [goCopy_shift, hlen, ← hd1, set_append_len, hd1, hx]
      rfl
    have hdrop1 : (pre.drop (pre.length - K)).drop 1 = pre.drop (pre.length + 1 - K) := by
      rw [List.drop_drop]
      congr 1
      omega
    have htgt : (pre ++ [r]).drop (pre.length + 1 - K) = pre.drop (pre.length + 1 - K) ++ [r] :=
      drop_append_le pre [r] (pre.length + 1 - K) (by omega)
    simp [ObservedLogsDefault.Add, stateOf, hmin, hmin2, hLne, hslen, hset, hdrop1, htgt, hK]
    refine ⟨by omega, ⟨hK, ?_⟩, ?_⟩
    · rw [← hdrop1, hslen]
      omega
    · rw [← hdrop1, hset, hdrop1]

/-- Folding any record list into a fixed-capacity fresh-family state keeps
the `stateOf` characterization. -/
theorem addList_stateOf (K : Nat) (hK : 0 < K) :
    ∀ (rs pre : List LoggedRecord),
      (stateOf K pre).addList rs = some (stateOf K (pre ++ rs)) := by
  intro rs
  induction rs with
  | nil => intro pre; simp [ObservedLogsDefault.addList]
  | cons r rest ih =>
    intro pre
    simp only [ObservedLogsDefault.addList, List.foldlM_cons]
    rw [add_stateOf K hK pre r]
    simp only [Option.bind_eq_bind, Option.some_bind]
    have := ih (pre ++ [r])
    simp only [ObservedLogsDefault.addList] at this
    rw [this]
    simp

theorem new_eq_stateOf (K : Nat) (hK : 0 < K) :
    ObservedLogsDefault.new K = stateOf K [] := by
  simp [ObservedLogsDefault.new, stateOf, hK]

/-- C1: for every `ObservedLogsDefault` store created with maximum capacity
`K > 0` and every sequence of `N > K` `Add` calls starting from the fresh
store, the calls all succeed, `Len()` returns `K`, and `All()` returns
exactly the last `K` records added, in the order they were added. -/
theorem claim_C1_bounded_eviction (K : Nat) (rs : List LoggedRecord)
    (hK : 0 < K) (hN : K < rs.length) :
    ∃ s, (ObservedLogsDefault.new K).addList rs = some s ∧
      s.Len = K ∧ s.All = rs.drop (rs.length - K) := by
  refine ⟨stateOf K rs, ?_, ?_, ?_⟩
  · rw [new_eq_stateOf K hK]
    simpa using addList_stateOf K hK rs []
  · simp [ObservedLogsDefault.Len, stateOf]
    omega
  · simp [ObservedLogsDefault.All, stateOf]

/-- Witness for C1: capacity 2, three records; `Len` is 2 and `All` is the
last two records in order. -/
theorem claim_C1_bounded_eviction_witness :
    0 < 2 ∧ 2 < ([recA, recB, recC] : List LoggedRecord).length ∧
    (∃ s, (ObservedLogsDefault.new 2).addList [recA, recB, recC] = some s ∧
      s.Len = 2 ∧ s.All = [recB, recC]) := by
  refine ⟨by decide, by decide, ?_⟩
  have h := claim_C1_bounded_eviction 2 [recA, recB, recC] (by decide) (by decide)
  simpa using h

/-- C4: on a bounded `ObservedLogsDefault` (capacity 1, one record added and
drained), the `Add` call after `TakeAll` panics — `TakeAll` nils the `logs`
slice without resetting `size`, so the next `Add` takes the eviction path on
an empty slice. The embedded evaluation yields `none` (the panic) instead of
a state holding the new record. -/
theorem claim_C4_add_after_takeall_panics : c4After = none := rfl

/-- C3: the ring store and the default store disagree on a fixed-capacity
store that is not yet full. With capacity 3 and one record added, ring
`All()` panics (slice bound `cap - size%cap` past the result's capacity,
evaluated as `none`), while the default store returns that record; with two
records added, ring `All()` returns an unwritten zero-valued slot followed
by the first record instead of the two records in insertion order. -/
theorem claim_C3_ring_all_diverges :
    c3Ring1.map ObservedLogsRing.All = some none ∧
    c3Ring2.map ObservedLogsRing.All = some (some [LoggedRecord.zero, recA]) ∧
    c3Default1.map ObservedLogsDefault.All = some [recA] :=
  ⟨rfl, rfl, rfl⟩

/-- Counterexample for C7: filtering a capacity-1 bounded store yields a
store whose `fixed` flag is off and which accepts two further records,
reporting `Len() = 3`; a bounded result with the same maximum 1 would never
exceed length 1. -/
theorem claim_C7_counterexample :
    c7Filtered.map (fun s => s.fixed) = some false ∧
    c7After.map ObservedLogsDefault.Len = some 3 ∧ ¬ (3 ≤ 1) :=
  ⟨rfl, rfl, by omega⟩

/-- C7 (amended): `Filter` on an `ObservedLogsDefault` returns a new store
containing exactly the records accepted by the predicate in their original
relative order (the source value is not mutated — the embedded `Filter` only
reads it), but the result is always unbounded: its `fixed` flag is false
regardless of the source's capacity. -/
theorem claim_C7_filter_contents (o : ObservedLogsDefault)
    (keep : LoggedRecord → Bool) :
    (o.Filter keep).All = o.All.filter keep ∧ (o.Filter keep).fixed = false := by
  constructor
  · simp [ObservedLogsDefault.Filter, ObservedLogsDefault.All]
  · simp [ObservedLogsDefault.Filter]

/-- Lookup on a non-empty association list inspects the head first. -/
theorem mapGet_cons (p : String × MVal) (t : List (String × MVal)) (k' : String) :
    mapGet (p :: t) k' = if p.1 == k' then some p.2 else mapGet t k' := by
  cases hq : (p.1 == k') <;> simp [mapGet, List.find?_cons, hq]

/-- Overwriting every entry keyed `k` leaves a lookup at `k' ≠ k`
unchanged. -/
theorem mapGet_map_overwrite (m : List (String × MVal)) (k k' : String)
    (v : MVal) (h : k' ≠ k) :
    mapGet (m.map (fun p => if p.1 == k then (k, v) else p)) k' = mapGet m k' := by
  induction m with
  | nil => rfl
  | cons p t ih =>
    have hkk' : (k == k') = false := beq_eq_false_iff_ne.mpr (Ne.symm h)
    rw [List.map_cons, mapGet_cons, mapGet_cons]
    by_cases hp : p.1 = k
    · have hpk : (p.1 == k) = true := beq_iff_eq.mpr hp
      have hpk' : (p.1 == k') = false := by
        rw [hp]
        exact hkk'
      rw [if_pos hpk, ih]
      simp [hkk', hpk']
    · have hpk : ¬ ((p.1 == k) = true) := by
        simp [hp]
      rw [if_neg hpk, ih]

/-- Appending an entry keyed `k` leaves a lookup at `k' ≠ k` unchanged. -/
theorem mapGet_append_ne (m : List (String × MVal)) (k k' : String)
    (v : MVal) (h : k' ≠ k) :
    mapGet (m ++ [(k, v)]) k' = mapGet m k' := by
  induction m with
  | nil =>
    have hkk' : (k == k') = false := beq_eq_false_iff_ne.mpr (Ne.symm h)
    simp [mapGet, List.find?_cons, hkk']
  | cons p t ih =>
    rw [List.cons_append, mapGet_cons, mapGet_cons, ih]

/-- Map assignment under a different key leaves a lookup unchanged. -/
theorem mapGet_mapPut_ne (m : List (String × MVal)) (k k' : String) (v : MVal)
    (h : k' ≠ k) : mapGet (mapPut m k v) k' = mapGet m k' := by
  by_cases hany : m.any (fun p => p.1 == k)
  · simp only [mapPut, hany, if_true]
    exact mapGet_map_overwrite m k k' v h
  · simp only [mapPut, hany, if_false]
    exact mapGet_append_ne m k k' v h

/-- The attribute-map loop never creates an empty-string key when the
accumulator has none. -/
theorem attrsMapAux_no_empty_key (attrs : List Attr) :
    ∀ res, mapGet res "" = none → mapGet (attrsMapAux res attrs) "" = none := by
  induction attrs with
  | nil => intro res hres; simpa [attrsMapAux] using hres
  | cons hd rest ih =>
    intro res hres
    obtain ⟨k, v⟩ := hd
    by_cases hk : k = ""
    · cases v <;> simpa [attrsMapAux, hk] using ih res hres
    · have hput : ∀ w, mapGet (mapPut res k w) "" = none := by
        intro w
        rw [mapGet_mapPut_ne res k "" w (fun hh => hk hh.symm)]
        exact hres
      cases v <;> simpa [attrsMapAux, hk] using ih _ (hput _)

/-- C10: `AttrsMap` omits every attribute whose key is the empty string
regardless of its value — the resulting map has no entry for the empty key —
and in particular an empty-key attribute with a non-empty value is
dropped. -/
theorem claim_C10_empty_key_elided :
    (∀ attrs, mapGet (attrsMap attrs) "" = none) ∧
    attrsMap [("", Value.str "x")] = [] := by
  constructor
  · intro attrs
    exact attrsMapAux_no_empty_key attrs [] rfl
  · simp [attrsMap, attrsMapAux]

/-- Counterexample for C9: on the no-group attribute list `[("", "x")]` the
code's map has no entry at the empty key, while the flat key-to-value
mapping described by the claim has one. -/
theorem claim_C9_counterexample :
    (∀ a ∈ c9Example, Value.kind a.2 ≠ VKind.kgroup) ∧
    mapGet (attrsMap c9Example) "" ≠ mapGet (specFlatMap c9Example) "" := by
  constructor
  · intro a ha
    simp [c9Example] at ha
    subst ha
    simp [Value.kind]
  · have h1 : mapGet (attrsMap c9Example) "" = none := by
      simp [c9Example, attrsMap, attrsMapAux, mapGet]
    have h2 : mapGet (specFlatMap c9Example) "" = some (MVal.leaf (Value.str "x")) := by
      simp [c9Example, specFlatMap, mapPut, mapGet, List.find?]
    simp [h1, h2]

/-- The attribute-map loop coincides with flat last-write-wins insertion on
lists with no groups and no empty keys, for any accumulator. -/
theorem attrsMapAux_flat (attrs : List Attr) :
    ∀ res, (∀ a ∈ attrs, Value.kind a.2 ≠ VKind.kgroup) →
      (∀ a ∈ attrs, a.1 ≠ "") →
      attrsMapAux res attrs = attrs.foldl (fun m a => mapPut m a.1 (.leaf a.2)) res := by
  induction attrs with
  | nil => intro res _ _; simp [attrsMapAux]
  | cons hd rest ih =>
    intro res hg hk
    obtain ⟨k, v⟩ := hd
    have hk0 : ¬ (k = "") := hk (k, v) (by simp)
    have hg0 : Value.kind v ≠ VKind.kgroup := hg (k, v) (by simp)
    have hgr : ∀ a ∈ rest, Value.kind a.2 ≠ VKind.kgroup := fun a ha => hg a (by simp [ha])
    have hkr : ∀ a ∈ rest, a.1 ≠ "" := fun a ha => hk a (by simp [ha])
    cases v with
    | group g => simp [Value.kind] at hg0
    | str s => simpa [attrsMapAux, hk0] using ih _ hgr hkr
    | int i => simpa [attrsMapAux, hk0] using ih _ hgr hkr
    | boolv b => simpa [attrsMapAux, hk0] using ih _ hgr hkr
    | anyv p => simpa [attrsMapAux, hk0] using ih _ hgr hkr

/-- C9 (amended): for every attribute list containing no group-kind
attributes and no empty keys, `AttrsMap` returns the flat mapping whose
entries are exactly the key-to-value pairs of the list, a later duplicate
key overwriting an earlier one. -/
theorem claim_C9_flat_round_trip (attrs : List Attr)
    (hg : ∀ a ∈ attrs, Value.kind a.2 ≠ VKind.kgroup)
    (hk : ∀ a ∈ attrs, a.1 ≠ "") :
    attrsMap attrs = specFlatMap attrs := by
  simpa [attrsMap, specFlatMap] using attrsMapAux_flat attrs [] hg hk

/-- Witness for C9 (amended): a concrete no-group, no-empty-key list with a
duplicate key. -/
theorem claim_C9_flat_round_trip_witness :
    (∀ a ∈ c9Flat, Value.kind a.2 ≠ VKind.kgroup) ∧ (∀ a ∈ c9Flat, a.1 ≠ "") ∧
    attrsMap c9Flat = specFlatMap c9Flat := by
  have h1 : ∀ a ∈ c9Flat, Value.kind a.2 ≠ VKind.kgroup := by
    intro a ha
    simp [c9Flat] at ha
    rcases ha with ha | ha | ha <;> subst ha <;> simp [Value.kind]
  have h2 : ∀ a ∈ c9Flat, a.1 ≠ "" := by
    intro a ha
    simp [c9Flat] at ha
    rcases ha with ha | ha | ha <;> subst ha <;> simp
  exact ⟨h1, h2, claim_C9_flat_round_trip c9Flat h1 h2⟩

/-- Counterexample for C8, refuting both failing clauses of the claim.
First: the record `[("g", group [("k", "v")])]` contains the target
attribute `("g", group [("k", "v")])` itself (same key, kind and value, at
top level), yet `filterAttr` rejects it — a group-kind stored attribute is
only recursed into, never compared whole. Second: filtering is not
panic-free on non-comparable payloads — a stored "any" attribute whose key,
kind and dynamic type match the target's but whose map payload differs
passes the `DeepEqual` guard as unequal and falls through to
`Attr.Equal`, whose interface comparison panics (`none`). -/
theorem claim_C8_counterexample :
    (Occurs [c8Target] c8Target ∧ filterAttr [c8Target] c8Target = some false) ∧
    filterAttr [c8PanicStored] c8PanicTarget = none := by
  refine ⟨⟨?_, ?_⟩, ?_⟩
  · simp [c8Target, Occurs]
  · simp [c8Target, filterAttr, Value.kind]
  · simp [c8PanicStored, c8PanicTarget, filterAttr, anyDeepEqual, Value.kind,
      AnyPayload.deepEqual, Attr.goEqual, Value.goEqual, AnyPayload.goEq]

theorem filterAttr_cons_nongroup (k : String) (v : Value) (rest : List Attr)
    (attr : Attr) (hv : Value.kind v ≠ VKind.kgroup) :
    filterAttr ((k, v) :: rest) attr =
      if k == attr.1 && (Value.kind v == Value.kind attr.2) then
        if anyDeepEqual v attr.2 then
          some true
        else
          match Attr.goEqual (k, v) attr with
          | none => none
          | some true => some true
          | some false => filterAttr rest attr
      else
        filterAttr rest attr := by
  cases v with
  | group g => simp [Value.kind] at hv
  | str s => simp [filterAttr]
  | int i => simp [filterAttr]
  | boolv b => simp [filterAttr]
  | anyv p => simp [filterAttr]

theorem Occurs_cons_nongroup (k : String) (v : Value) (rest : List Attr)
    (attr : Attr) (hv : Value.kind v ≠ VKind.kgroup) :
    Occurs ((k, v) :: rest) attr ↔ ((k, v) = attr ∨ Occurs rest attr) := by
  cases v with
  | group g => simp [Value.kind] at hv
  | str s => simp [Occurs]
  | int i => simp [Occurs]
  | boolv b => simp [Occurs]
  | anyv p => simp [Occurs]

/-- A group-kind target never matches: every stored group is recursed into
and every non-group stored attribute fails the kind test, so the scan
always completes with false (no panic is reachable either). -/
theorem filterAttr_group_target_aux (attr : Attr)
    (hk : Value.kind attr.2 = VKind.kgroup) :
    ∀ (n : Nat) (attrs : List Attr), sizeOf attrs ≤ n →
      filterAttr attrs attr = some false := by
  intro n
  induction n with
  | zero =>
    intro attrs h
    cases attrs <;> simp_all
  | succ n ih =>
    intro attrs h
    cases attrs with
    | nil => simp [filterAttr]
    | cons hd rest =>
      obtain ⟨k, v⟩ := hd
      have hr : sizeOf rest ≤ n := by
        simp at h
        omega
      cases v with
      | group g =>
        have hg : sizeOf g ≤ n := by
          simp at h
          omega
        simp [filterAttr, ih g hg, ih rest hr]
      | str s =>
        have hcond : (Value.kind (Value.str s) == Value.kind attr.2) = false := by
          rw [hk]
          rfl
        simp [filterAttr, hcond, ih rest hr]
      | int i =>
        have hcond : (Value.kind (Value.int i) == Value.kind attr.2) = false := by
          rw [hk]
          rfl
        simp [filterAttr, hcond, ih rest hr]
      | boolv b =>
        have hcond : (Value.kind (Value.boolv b) == Value.kind attr.2) = false := by
          rw [hk]
          rfl
        simp [filterAttr, hcond, ih rest hr]
      | anyv p =>
        have hcond : (Value.kind (Value.anyv p) == Value.kind attr.2) = false := by
          rw [hk]
          rfl
        simp [filterAttr, hcond, ih rest hr]

theorem filterAttr_step_nongroup (k : String) (v : Value) (rest : List Attr)
    (attr : Attr) (hv : Value.kind v ≠ VKind.kgroup)
    (ihr : filterAttr rest attr ≠ none →
      (filterAttr rest attr = some true ↔
        (Value.kind attr.2 ≠ VKind.kgroup ∧ Occurs rest attr)))
    (hne : filterAttr ((k, v) :: rest) attr ≠ none) :
    filterAttr ((k, v) :: rest) attr = some true ↔
      (Value.kind attr.2 ≠ VKind.kgroup ∧ Occurs ((k, v) :: rest) attr) := by
  rw [Occurs_cons_nongroup k v rest attr hv]
  by_cases hcnd : (k == attr.1 && (Value.kind v == Value.kind attr.2)) = true
  case neg =>
    have hwhole : filterAttr ((k, v) :: rest) attr = filterAttr rest attr := by
      rw [filterAttr_cons_nongroup k v rest attr hv, if_neg hcnd]
    rw [hwhole] at hne ⊢
    have hnhead : (k, v) ≠ attr := by
      intro he
      apply hcnd
      subst he
      simp
    rw [ihr hne]
    constructor
    · rintro ⟨hk, ho⟩
      exact ⟨hk, Or.inr ho⟩
    · rintro ⟨hk, he | ho⟩
      · exact absurd he hnhead
      · exact ⟨hk, ho⟩
  case pos =>
    have hcnd2 := hcnd
    rw [Bool.and_eq_true] at hcnd2
    obtain ⟨h1, h2⟩ := hcnd2
    rw [beq_iff_eq] at h1
    rw [beq_iff_eq] at h2
    have hkd : Value.kind attr.2 ≠ VKind.kgroup := by
      rw [← h2]
      exact hv
    have hVEq : Attr.goEqual (k, v) attr = Value.goEqual v attr.2 := by
      unfold Attr.goEqual
      rw [if_pos (beq_iff_eq.mpr h1)]
    by_cases hdeep : anyDeepEqual v attr.2 = true
    case pos =>
      have hwhole : filterAttr ((k, v) :: rest) attr = some true := by
        rw [filterAttr_cons_nongroup k v rest attr hv, if_pos hcnd, if_pos hdeep]
      rw [hwhole]
      have hveq : v = attr.2 := anyDeepEqual_true_eq v attr.2 hdeep
      have hhead : (k, v) = attr := by
        obtain ⟨a1, a2⟩ := attr
        simp at h1 hveq
        simp [h1, hveq]
      simp [hkd, hhead]
    case neg =>
      rcases hEq : Attr.goEqual (k, v) attr with _ | b
      · have hwhole : filterAttr ((k, v) :: rest) attr = none := by
          rw [filterAttr_cons_nongroup k v rest attr hv, if_pos hcnd, if_neg hdeep, hEq]
        exact absurd hwhole hne
      · cases b with
        | true =>
          have hwhole : filterAttr ((k, v) :: rest) attr = some true := by
            rw [filterAttr_cons_nongroup k v rest attr hv, if_pos hcnd, if_neg hdeep, hEq]
          rw [hwhole]
          have hveq : v = attr.2 := by
            apply Value.goEqual_some_true v attr.2 hv
            rw [← hVEq]
            exact hEq
          have hhead : (k, v) = attr := by
            obtain ⟨a1, a2⟩ := attr
            simp at h1 hveq
            simp [h1, hveq]
          simp [hkd, hhead]
        | false =>
          have hwhole : filterAttr ((k, v) :: rest) attr = filterAttr rest attr := by
            rw [filterAttr_cons_nongroup k v rest attr hv, if_pos hcnd, if_neg hdeep, hEq]
          rw [hwhole] at hne ⊢
          have hVf : Value.goEqual v attr.2 = some false := by
            rw [← hVEq]
            exact hEq
          have hnhead : (k, v) ≠ attr := by
            intro he
            have hveq : v = attr.2 := congrArg Prod.snd he
            by_cases hany : Value.kind v = VKind.kany
            · cases v with
              | anyv p =>
                rw [← hveq] at hdeep
                exact hdeep (anyDeepEqual_self p)
              | str s => simp [Value.kind] at hany
              | int i => simp [Value.kind] at hany
              | boolv b => simp [Value.kind] at hany
              | group g => simp [Value.kind] at hv
            · have hself := Value.goEqual_self_scalar v hv hany
              rw [← hveq, hself] at hVf
              simp at hVf
          rw [ihr hne]
          constructor
          · rintro ⟨hk, ho⟩
            exact ⟨hk, Or.inr ho⟩
          · rintro ⟨hk, he | ho⟩
            · exact absurd he hnhead
            · exact ⟨hk, ho⟩

/-- On a scan that completes without panicking, `filterAttr` returns true
exactly for a non-group target occurring (same key, kind, value) anywhere in
the tree. -/
theorem filterAttr_occurs_aux (attr : Attr) :
    ∀ (n : Nat) (attrs : List Attr), sizeOf attrs ≤ n →
      filterAttr attrs attr ≠ none →
      (filterAttr attrs attr = some true ↔
        (Value.kind attr.2 ≠ VKind.kgroup ∧ Occurs attrs attr)) := by
  intro n
  induction n with
  | zero =>
    intro attrs h
    cases attrs <;> simp_all
  | succ n ih =>
    intro attrs h hne
    cases attrs with
    | nil => simp [filterAttr, Occurs]
    | cons hd rest =>
      obtain ⟨k, v⟩ := hd
      have hr : sizeOf rest ≤ n := by
        simp at h
        omega
      cases v with
      | group g =>
        have hgsz : sizeOf g ≤ n := by
          simp at h
          omega
        rcases hg : filterAttr g attr with _ | b
        · have hwhole : filterAttr ((k, Value.group g) :: rest) attr = none := by
            simp [filterAttr, hg]
          exact absurd hwhole hne
        · cases b with
          | true =>
            have hwhole : filterAttr ((k, Value.group g) :: rest) attr = some true := by
              simp [filterAttr, hg]
            obtain ⟨hk, ho⟩ := (ih g hgsz (by simp [hg])).mp hg
            rw [hwhole]
            simp only [Occurs]
            constructor
            · intro _
              exact ⟨hk, Or.inr (Or.inl ho)⟩
            · intro _
              trivial
          | false =>
            have hwhole : filterAttr ((k, Value.group g) :: rest) attr
                = filterAttr rest attr := by
              simp [filterAttr, hg]
            rw [hwhole] at hne ⊢
            have ha : Value.kind attr.2 ≠ VKind.kgroup → ¬ Occurs g attr := by
              intro hk ho
              have := (ih g hgsz (by simp [hg])).mpr ⟨hk, ho⟩
              rw [hg] at this
              simp at this
            have hb : Value.kind attr.2 ≠ VKind.kgroup → (k, Value.group g) ≠ attr := by
              intro hk he
              rw [← he] at hk
              simp [Value.kind] at hk
            rw [ih rest hr hne]
            simp only [Occurs]
            constructor
            · rintro ⟨hk, ho⟩
              exact ⟨hk, Or.inr (Or.inr ho)⟩
            · rintro ⟨hk, he | ho | ho⟩
              · exact absurd he (hb hk)
              · exact absurd ho (ha hk)
              · exact ⟨hk, ho⟩
      | str s =>
        exact filterAttr_step_nongroup k _ rest attr (by simp [Value.kind]) (ih rest hr) hne
      | int i =>
        exact filterAttr_step_nongroup k _ rest attr (by simp [Value.kind]) (ih rest hr) hne
      | boolv b =>
        exact filterAttr_step_nongroup k _ rest attr (by simp [Value.kind]) (ih rest hr) hne
      | anyv p =>
        exact filterAttr_step_nongroup k _ rest attr (by simp [Value.kind]) (ih rest hr) hne

/-- C8 (amended): a group-kind target never matches any record (the scan
returns false without panicking); on every scan that completes without
panicking, `filterAttr` returns true exactly when the target is non-group
and an attribute with the same key, kind and value occurs anywhere in the
tree (recursive descent into nested groups); and equal "any"-kind payloads —
including non-comparable ones such as maps and slices — are accepted by the
`reflect.DeepEqual` guard before the panicking interface comparison is
reached. A stored "any" attribute with the target's key, kind and dynamic
type but an unequal non-comparable payload does panic (see the
counterexample). -/
theorem claim_C8_filter_attr_occurrence (attrs : List Attr) (attr : Attr) :
    (Value.kind attr.2 = VKind.kgroup → filterAttr attrs attr = some false) ∧
    (filterAttr attrs attr ≠ none →
      (filterAttr attrs attr = some true ↔
        (Value.kind attr.2 ≠ VKind.kgroup ∧ Occurs attrs attr))) ∧
    (∀ (k t : String) (vv : List String),
      filterAttr [(k, Value.anyv (AnyPayload.noncmp t vv))]
        (k, Value.anyv (AnyPayload.noncmp t vv)) = some true) := by
  refine ⟨?_, ?_, ?_⟩
  · intro hk
    exact filterAttr_group_target_aux attr hk (sizeOf attrs) attrs le_rfl
  · exact filterAttr_occurs_aux attr (sizeOf attrs) attrs le_rfl
  · intro k t vv
    simp [filterAttr, anyDeepEqual, AnyPayload.deepEqual]

/-- Witness for C8 (amended), discharging both hypotheses at concrete
inputs: a group-kind target is rejected on a record with a nested group, and
a panic-free scan of the same record with the nested leaf as target yields
the occurrence equivalence. -/
theorem claim_C8_filter_attr_occurrence_witness :
    filterAttr [("a", Value.group [("b", Value.int 2)])] ("g", Value.group [])
      = some false ∧
    (filterAttr [("a", Value.group [("b", Value.int 2)])] ("b", Value.int 2)
        = some true ↔
      (Value.kind (Value.int 2) ≠ VKind.kgroup ∧
        Occurs [("a", Value.group [("b", Value.int 2)])] ("b", Value.int 2))) := by
  constructor
  · exact (claim_C8_filter_attr_occurrence [("a", Value.group [("b", Value.int 2)])]
      ("g", Value.group [])).1 rfl
  · exact (claim_C8_filter_attr_occurrence [("a", Value.group [("b", Value.int 2)])]
      ("b", Value.int 2)).2.1
      (by simp [filterAttr, anyDeepEqual, Attr.goEqual, Value.goEqual])

/-- C2: sibling isolation fails when the parent has an open group. With
`H = new.WithGroup("g")`, `H1 = H.WithAttrs({c:3})` and
`H2 = H.WithAttrs({d:4})`, the record logged through `H2` carries `H1`'s
attribute `c:3` inside the group — `H1`'s derivation wrote `c:3` into the
groups backing array that `H2` shares with the parent. -/
theorem claim_C2_sibling_contamination :
    c2Logged.1.attrs = [("g", Value.group [("c", Value.int 3), ("d", Value.int 4)])] ∧
    filterAttr c2Logged.1.attrs ("c", Value.int 3) = some true := by
  have h : c2Logged.1.attrs
      = [("g", Value.group [("c", Value.int 3), ("d", Value.int 4)])] := rfl
  refine ⟨h, ?_⟩
  rw [h]
  simp [filterAttr, Value.kind, anyDeepEqual, Attr.goEqual, Value.goEqual]

/-- C5: `Handle` mutates the handler's accumulated group state. Calling
`Handle` twice on the same one-open-group handler with the same record
(attribute `k="v"`) stores different attribute lists: the second call sees
the record attribute already merged into the group by the first call and
merges it again. -/
theorem claim_C5_handle_mutates_groups :
    c5First.1.attrs = [("g", Value.group [("k", Value.str "v")])] ∧
    c5Second.1.attrs
      = [("g", Value.group [("k", Value.str "v"), ("k", Value.str "v")])] ∧
    c5First.1.attrs ≠ c5Second.1.attrs := by
  have h1 : c5First.1.attrs = [("g", Value.group [("k", Value.str "v")])] := rfl
  have h2 : c5Second.1.attrs
      = [("g", Value.group [("k", Value.str "v"), ("k", Value.str "v")])] := rfl
  refine ⟨h1, h2, ?_⟩
  rw [h1, h2]
  simp

/-- C6: logging through `H.WithGroup("foo").WithAttrs(i=2, Group("bar",
i=3))` with message `"foo"`, where the ancestor `H` carries `i=1`, stores a
record whose attribute map is `{i:1, foo:{i:2, bar:{i:3}}}`. -/
theorem claim_C6_group_nesting :
    c6Logged.1.record.message = "foo" ∧
    c6Logged.1.attrs = [("i", Value.int 1),
      ("foo", Value.group [("i", Value.int 2),
        ("bar", Value.group [("i", Value.int 3)])])] ∧
    c6Logged.1.AttrsMap = [("i", MVal.leaf (Value.int 1)),
      ("foo", MVal.tree [("i", MVal.leaf (Value.int 2)),
        ("bar", MVal.tree [("i", MVal.leaf (Value.int 3))])])] := by
  have h : c6Logged.1.attrs = [("i", Value.int 1),
      ("foo", Value.group [("i", Value.int 2),
        ("bar", Value.group [("i", Value.int 3)])])] := rfl
  refine ⟨rfl, h, ?_⟩
  rw [LoggedRecord.AttrsMap, h]
  simp [attrsMap, attrsMapAux, mapPut, mapGet]

end Slogex
